import Mathlib

/-!
Verification of the gitflat file-selection and flattening pipeline
(src/main.go), as a shallow embedding.

The embedded functions:
- `shouldExclude`   — src/main.go lines 193-203
- `hasValidExtension` — src/main.go lines 205-215
- `basename`          — Go `filepath.Base` on slash-separated paths
- `processFiles`      — src/main.go lines 149-175: the traversal callback
  over the tree snapshot, filtering and emitting each file.
- `processFilesWith`  — the same loop with the output target abstracted as
  `emit : state -> path -> content -> Except error state`; the two branches
  of the source (single-file Fprintf / per-file WriteFile) are the
  instantiation `goEmit`.

The traversal (go-git `tree.Files().ForEach`) is modelled as a list of
`Except String Entry`: an `Except.error` element is an enumeration failure
at that point of the walk, which ForEach propagates, aborting the rest.
A callback error likewise aborts the iteration.
-/

/-- A file entry of the tree snapshot: a repo-relative slash-separated
path and a content accessor that may fail (go-git `object.File`:
`f.Name`, `f.Contents()`). -/
structure Entry where
  name : String
  contents : Except String String
deriving Repr

/-- The run configuration fields that `processFiles` consults
(src/main.go `options`; the `include` field is named `includeDir` here
because `include` is reserved in Lean). -/
structure Options where
  excludeDirs : List String
  includeDir : String
  extensions : List String
  singleFile : Bool
deriving Repr

/-- Go `strings.HasPrefix s pre`: a byte-for-byte literal test that `s`
begins with `pre`, embedded as a prefix test on the character lists. -/
def startsWithStr (s pre : String) : Bool :=
  pre.data.isPrefixOf s.data

/-- Go `strings.HasSuffix s suf`: a byte-for-byte literal test that `s`
ends with `suf`, embedded as a suffix test on the character lists. -/
def endsWithStr (s suf : String) : Bool :=
  suf.data.isSuffixOf s.data

/-- From src/main.go lines 193-203. If `include` is non-empty, a path is
excluded exactly when it does not start with `include`; otherwise it is
excluded when it starts with some non-empty entry of `excludeDirs`. -/
def shouldExclude (path : String) (excludeDirs : List String) (includeDir : String) : Bool :=
  if includeDir != "" then
    !startsWithStr path includeDir
  else
    excludeDirs.any fun dir => dir != "" && startsWithStr path dir

/-- From src/main.go lines 205-215. Accept-all short-circuit when the
extension list is empty or is the one-element list containing the empty
string; otherwise a literal suffix test against the non-empty entries. -/
def hasValidExtension (path : String) (extensions : List String) : Bool :=
  if extensions.length == 0 || (extensions.length == 1 && extensions[0]? == some "") then
    true
  else
    extensions.any fun validExt => validExt != "" && endsWithStr path validExt

/-- The selection predicate of the pipeline: a file survives filtering
exactly when `shouldExclude` is false and `hasValidExtension` is true
(src/main.go lines 151-157, the two early returns of the callback). -/
def isSelected (path : String) (excludeDirs : List String) (includeDir : String)
    (extensions : List String) : Bool :=
  !shouldExclude path excludeDirs includeDir && hasValidExtension path extensions

/-- Splitting a character list at the separator '/': the list of
segments, in order (an empty segment for each leading, trailing or
doubled separator). -/
def splitSlash : List Char → List (List Char)
  | [] => [[]]
  | c :: rest =>
    match splitSlash rest with
    | [] => [[c]]
    | s :: ss => if c = '/' then [] :: s :: ss else (c :: s) :: ss

/-- Go `filepath.Base` restricted to slash-separated paths: the last
non-empty path element (trailing separators dropped); "." for the empty
path, "/" for a path made of separators only. -/
def basename (path : String) : String :=
  if path = "" then "."
  else
    match ((splitSlash path.data).filter fun s => s ≠ []).getLast? with
    | some b => String.mk b
    | none => "/"

/-- The output state of one run: the single-file output buffer
(`flattened_repo.txt` contents) and the journal of per-file writes into
the destination folder, in order, keyed by basename. -/
structure OutState where
  stream : String
  files : List (String × String)
deriving Repr

/-- From src/main.go lines 164-169, the two emission branches of the callback
body: single-file mode appends `--- <name> ---\n<content>\n\n` to the
output writer; multi-file mode writes `content` at the basename of the
path inside the destination folder (the journal records the write;
`os.WriteFile` truncates, so the last write for a basename wins). -/
def goEmit (opts : Options) (st : OutState) (name content : String) : Except String OutState :=
  if opts.singleFile then
    Except.ok { st with stream := st.stream ++ "--- " ++ name ++ " ---\n" ++ content ++ "\n\n" }
  else
    Except.ok { st with files := st.files ++ [(basename name, content)] }

/-- From src/main.go lines 149-175, with the output target abstracted as a
fallible `emit` (spec section 4.3: `emit(path, content) -> error`). The
traversal item `Except.error e` is an enumeration failure, propagated
as-is; a selected entry whose content read fails aborts with the wrapped
read error; a failing emit aborts with the wrapped write error. -/
def processFilesWith {σ : Type} (emit : σ → String → String → Except String σ)
    (opts : Options) : List (Except String Entry) → σ → Except String σ
  | [], st => Except.ok st
  | Except.error e :: _, _ => Except.error e
  | Except.ok f :: rest, st =>
    if shouldExclude f.name opts.excludeDirs opts.includeDir then
      processFilesWith emit opts rest st
    else if !hasValidExtension f.name opts.extensions then
      processFilesWith emit opts rest st
    else
      match f.contents with
      | Except.error e => Except.error ("error reading file contents: " ++ e)
      | Except.ok content =>
        match emit st f.name content with
        | Except.error e => Except.error ("error writing file: " ++ e)
        | Except.ok st' => processFilesWith emit opts rest st'

/-- From src/main.go lines 149-175, concretely: skip entries for which
`shouldExclude` holds or `hasValidExtension` fails, read the content of
the survivors, and emit per the mode (Fprintf block to the output writer
in single-file mode, `os.WriteFile` of the basename otherwise). -/
def processFiles (opts : Options) : List (Except String Entry) → OutState → Except String OutState
  | [], st => Except.ok st
  | Except.error e :: _, _ => Except.error e
  | Except.ok f :: rest, st =>
    if shouldExclude f.name opts.excludeDirs opts.includeDir then
      processFiles opts rest st
    else if !hasValidExtension f.name opts.extensions then
      processFiles opts rest st
    else
      match f.contents with
      | Except.error e => Except.error ("error reading file contents: " ++ e)
      | Except.ok content =>
        if opts.singleFile then
          processFiles opts rest
            { st with stream := st.stream ++ "--- " ++ f.name ++ " ---\n" ++ content ++ "\n\n" }
        else
          processFiles opts rest
            { st with files := st.files ++ [(basename f.name, content)] }

/-- The (path, content) pairs the run is expected to forward to the
output target: the selected entries whose read succeeds, in traversal
order. -/
def selectedOutputs (opts : Options) : List Entry → List (String × String)
  | [] => []
  | f :: rest =>
    if isSelected f.name opts.excludeDirs opts.includeDir opts.extensions then
      match f.contents with
      | Except.ok c => (f.name, c) :: selectedOutputs opts rest
      | Except.error _ => selectedOutputs opts rest
    else
      selectedOutputs opts rest

/-- Folding the output target over a list of (path, content) pairs:
each pair is emitted exactly once, in order, and the first emit failure
aborts with the wrapped write error. -/
def emitAll {σ : Type} (emit : σ → String → String → Except String σ) :
    List (String × String) → σ → Except String σ
  | [], st => Except.ok st
  | (n, c) :: rest, st =>
    match emit st n c with
    | Except.error e => Except.error ("error writing file: " ++ e)
    | Except.ok st' => emitAll emit rest st'

/-- The final content of the flat file named `b` in the destination
folder, given the journal of writes: the last write to `b` wins
(`os.WriteFile` creates or truncates). -/
def lastWrite (ws : List (String × String)) (b : String) : Option String :=
  ((ws.filter fun p => p.1 == b).getLast?).map Prod.snd

/-- C2: with a non-empty include rule, the selection decision is exactly
`startsWith path include && hasValidExtension path exts`, and it does not
depend on the exclude list at all. -/
theorem includeMode_selection (P I : String) (excl excl' exts : List String)
    (h : I ≠ "") :
    isSelected P excl I exts = (startsWithStr P I && hasValidExtension P exts)
    ∧ shouldExclude P excl I = shouldExclude P excl' I := by
  have hI : (I != "") = true := by simpa using h
  constructor
  · simp [isSelected, shouldExclude, hI, Bool.not_not]
  · simp [shouldExclude, hI]

/-- Witness for C2 at a concrete include rule and two different exclude
lists. -/
theorem includeMode_selection_witness :
    ("src/" : String) ≠ ""
    ∧ isSelected "src/a.ts" ["vendor/"] "src/" []
        = (startsWithStr "src/a.ts" "src/" && hasValidExtension "src/a.ts" [])
    ∧ shouldExclude "src/a.ts" ["vendor/"] "src/" = shouldExclude "src/a.ts" [] "src/" := by
  refine ⟨by decide, ?_, ?_⟩
  · exact (includeMode_selection "src/a.ts" "src/" ["vendor/"] [] [] (by decide)).1
  · exact (includeMode_selection "src/a.ts" "src/" ["vendor/"] [] [] (by decide)).2

/-- C3: with an empty include rule, the selection decision is exactly
"no non-empty exclude entry is a literal string-prefix of the path" and
the extension test; an empty string among the exclude entries never
causes exclusion. -/
theorem excludeMode_selection (P : String) (excl exts : List String) :
    isSelected P excl "" exts
      = (!(excl.any fun dir => dir != "" && startsWithStr P dir) && hasValidExtension P exts)
    ∧ shouldExclude P ("" :: excl) "" = shouldExclude P excl "" := by
  constructor
  · simp [isSelected, shouldExclude]
  · simp [shouldExclude]

/-- C4: an empty extension list, or the one-element list containing only
the empty string, accepts every path regardless of its suffix. -/
theorem acceptAll_extension (P : String) :
    hasValidExtension P [] = true ∧ hasValidExtension P [""] = true :=
  ⟨rfl, rfl⟩

/-- C5: outside the accept-all shapes, the extension test accepts a path
exactly when the path ends, byte for byte, with some non-empty entry of
the list; in particular "notes.MD" is not accepted by [".go", ".md"]
(no case normalization). -/
theorem literal_suffix_extension (P : String) (exts : List String)
    (h : exts ≠ [] ∧ exts ≠ [""]) :
    hasValidExtension P exts = (exts.any fun validExt => validExt != "" && endsWithStr P validExt)
    ∧ hasValidExtension "notes.MD" [".go", ".md"] = false := by
  refine ⟨?_, by decide⟩
  cases exts with
  | nil => exact absurd rfl h.1
  | cons a l =>
    cases l with
    | nil =>
      have ha : a ≠ "" := fun hc => h.2 (by rw [hc])
      simp [hasValidExtension, ha]
    | cons b m =>
      have hcond : ((a :: b :: m).length == 0
          || ((a :: b :: m).length == 1 && (a :: b :: m)[0]? == some "")) = false := rfl
      simp [hasValidExtension, hcond]

/-- Witness for C5 at the concrete list [".go", ".md"] and path
"notes.MD". -/
theorem literal_suffix_extension_witness :
    (([".go", ".md"] : List String) ≠ [] ∧ ([".go", ".md"] : List String) ≠ [""])
    ∧ hasValidExtension "notes.MD" [".go", ".md"]
        = ([".go", ".md"].any fun validExt => validExt != "" && endsWithStr "notes.MD" validExt)
    ∧ hasValidExtension "notes.MD" [".go", ".md"] = false :=
  ⟨⟨by decide, by decide⟩,
   (literal_suffix_extension "notes.MD" [".go", ".md"] ⟨by decide, by decide⟩).1,
   (literal_suffix_extension "notes.MD" [".go", ".md"] ⟨by decide, by decide⟩).2⟩

/-- C6: both rule kinds are literal string-prefix tests, unaware of the
"/" segment structure: the rule "src", used as the include rule, keeps
the path "srcx/file", and used as an exclude entry it rejects it. -/
theorem segment_unaware_prefixes :
    shouldExclude "srcx/file" [] "src" = false
    ∧ shouldExclude "srcx/file" ["src"] "" = true
    ∧ isSelected "srcx/file" [] "src" [] = true
    ∧ isSelected "srcx/file" ["src"] "" [] = false := by
  refine ⟨?_, ?_, ?_, ?_⟩ <;> decide

/-- C10: the accept-all short-circuit requires the list to be empty or
exactly the one-element list containing the empty string; a list of two
or more entries that are all empty rejects every path. -/
theorem all_empty_extensions_reject (P : String) (exts : List String)
    (h2 : 2 ≤ exts.length) (hall : ∀ e ∈ exts, e = "") :
    hasValidExtension P exts = false := by
  cases exts with
  | nil => simp at h2
  | cons a l =>
    cases l with
    | nil => simp at h2
    | cons b m =>
      have hcond : ((a :: b :: m).length == 0
          || ((a :: b :: m).length == 1 && (a :: b :: m)[0]? == some "")) = false := rfl
      simp only [hasValidExtension, hcond, Bool.false_eq_true, if_false, List.any_eq_false]
      intro x hx
      simp [hall x hx]

/-- Witness for C10 at the two-element list of empty strings. -/
theorem all_empty_extensions_reject_witness :
    2 ≤ (["", ""] : List String).length
    ∧ (∀ e ∈ (["", ""] : List String), e = "")
    ∧ hasValidExtension "main.go" ["", ""] = false :=
  ⟨by decide, by decide,
   all_empty_extensions_reject "main.go" ["", ""] (by decide) (by decide)⟩

/-- An output target that records every emission, in order. -/
def logEmit : List (String × String) → String → String → Except String (List (String × String)) :=
  fun l n c => Except.ok (l ++ [(n, c)])

/-- On a run that returns success, the final target state is obtained by
folding the target's emit over exactly the selected (path, content)
pairs, in traversal order. -/
theorem processFilesWith_ok {σ : Type} (emit : σ → String → String → Except String σ)
    (opts : Options) :
    ∀ (entries : List Entry) (st stf : σ),
      processFilesWith emit opts (entries.map Except.ok) st = Except.ok stf →
      emitAll emit (selectedOutputs opts entries) st = Except.ok stf := by
  intro entries
  induction entries with
  | nil => intro st stf h; simpa [processFilesWith, selectedOutputs, emitAll] using h
  | cons f rest ih =>
    intro st stf h
    simp only [List.map_cons, processFilesWith] at h
    cases hex : shouldExclude f.name opts.excludeDirs opts.includeDir with
    | true =>
      rw [hex] at h
      simp only [if_true] at h
      have hsel : isSelected f.name opts.excludeDirs opts.includeDir opts.extensions = false := by
        simp [isSelected, hex]
      simp only [selectedOutputs, hsel, Bool.false_eq_true, if_false]
      exact ih st stf h
    | false =>
      rw [hex] at h
      simp only [Bool.false_eq_true, if_false] at h
      cases hvx : hasValidExtension f.name opts.extensions with
      | false =>
        rw [hvx] at h
        simp only [Bool.not_false, if_true] at h
        have hsel : isSelected f.name opts.excludeDirs opts.includeDir opts.extensions = false := by
          simp [isSelected, hvx]
        simp only [selectedOutputs, hsel, Bool.false_eq_true, if_false]
        exact ih st stf h
      | true =>
        rw [hvx] at h
        simp only [Bool.not_true, Bool.false_eq_true, if_false] at h
        have hsel : isSelected f.name opts.excludeDirs opts.includeDir opts.extensions = true := by
          simp [isSelected, hex, hvx]
        cases hc : f.contents with
        | error e => rw [hc] at h; simp at h
        | ok c =>
          rw [hc] at h
          dsimp only at h
          cases hemit : emit st f.name c with
          | error e => rw [hemit] at h; simp at h
          | ok st' =>
            rw [hemit] at h
            simp only [selectedOutputs, hsel, if_true, hc, emitAll, hemit]
            exact ih st' stf h

/-- On a run that returns success, every selected entry's content read
succeeded (a failing read of a selected entry would have aborted the
run). -/
theorem processFilesWith_ok_reads {σ : Type} (emit : σ → String → String → Except String σ)
    (opts : Options) :
    ∀ (entries : List Entry) (st stf : σ),
      processFilesWith emit opts (entries.map Except.ok) st = Except.ok stf →
      ∀ f ∈ entries,
        isSelected f.name opts.excludeDirs opts.includeDir opts.extensions = true →
        ∃ c, f.contents = Except.ok c := by
  intro entries
  induction entries with
  | nil => intro st stf _ f hf; simp at hf
  | cons g rest ih =>
    intro st stf h f hf hsel
    simp only [List.map_cons, processFilesWith] at h
    cases hex : shouldExclude g.name opts.excludeDirs opts.includeDir with
    | true =>
      rw [hex] at h
      simp only [if_true] at h
      rcases List.mem_cons.mp hf with hfg | hfr
      · subst hfg
        exact absurd hsel (by simp [isSelected, hex])
      · exact ih st stf h f hfr hsel
    | false =>
      rw [hex] at h
      simp only [Bool.false_eq_true, if_false] at h
      cases hvx : hasValidExtension g.name opts.extensions with
      | false =>
        rw [hvx] at h
        simp only [Bool.not_false, if_true] at h
        rcases List.mem_cons.mp hf with hfg | hfr
        · subst hfg
          exact absurd hsel (by simp [isSelected, hvx])
        · exact ih st stf h f hfr hsel
      | true =>
        rw [hvx] at h
        simp only [Bool.not_true, Bool.false_eq_true, if_false] at h
        cases hc : g.contents with
        | error e => rw [hc] at h; simp at h
        | ok c =>
          rw [hc] at h
          dsimp only at h
          cases hemit : emit st g.name c with
          | error e => rw [hemit] at h; simp at h
          | ok st' =>
            rw [hemit] at h
            rcases List.mem_cons.mp hf with hfg | hfr
            · subst hfg; exact ⟨c, hc⟩
            · exact ih st' stf h f hfr hsel

/-- C1: on a successful run, the final state of the active output target
is the result of emitting exactly the selected entries' (path, content)
pairs, once each, in traversal order — entries for which `isSelected`
(i.e. `!shouldExclude && hasValidExtension`) is false contribute
nothing — and every selected entry's content read succeeded. -/
theorem run_postcondition {σ : Type} (emit : σ → String → String → Except String σ)
    (opts : Options) (entries : List Entry) (st stf : σ)
    (h : processFilesWith emit opts (entries.map Except.ok) st = Except.ok stf) :
    emitAll emit (selectedOutputs opts entries) st = Except.ok stf
    ∧ ∀ f ∈ entries,
        isSelected f.name opts.excludeDirs opts.includeDir opts.extensions = true →
        ∃ c, f.contents = Except.ok c :=
  ⟨processFilesWith_ok emit opts entries st stf h,
   processFilesWith_ok_reads emit opts entries st stf h⟩

/-- Witness for C1: a three-entry snapshot under the rule
exclude ["vendor/"], extensions [".go"], observed through the logging
target; only "main.go" is emitted. -/
theorem run_postcondition_witness :
    processFilesWith logEmit ⟨["vendor/"], "", [".go"], false⟩
        ([⟨"main.go", Except.ok "package main"⟩, ⟨"vendor/lib.go", Except.ok "lib"⟩,
          ⟨"README.md", Except.ok "docs"⟩].map Except.ok) []
      = Except.ok [("main.go", "package main")]
    ∧ emitAll logEmit
        (selectedOutputs ⟨["vendor/"], "", [".go"], false⟩
          [⟨"main.go", Except.ok "package main"⟩, ⟨"vendor/lib.go", Except.ok "lib"⟩,
           ⟨"README.md", Except.ok "docs"⟩]) []
      = Except.ok [("main.go", "package main")]
    ∧ ∀ f ∈ [(⟨"main.go", Except.ok "package main"⟩ : Entry),
             ⟨"vendor/lib.go", Except.ok "lib"⟩, ⟨"README.md", Except.ok "docs"⟩],
        isSelected f.name ["vendor/"] "" [".go"] = true →
        ∃ c, f.contents = Except.ok c :=
  ⟨rfl,
   (run_postcondition logEmit ⟨["vendor/"], "", [".go"], false⟩
      [⟨"main.go", Except.ok "package main"⟩, ⟨"vendor/lib.go", Except.ok "lib"⟩,
       ⟨"README.md", Except.ok "docs"⟩] [] [("main.go", "package main")] rfl).1,
   (run_postcondition logEmit ⟨["vendor/"], "", [".go"], false⟩
      [⟨"main.go", Except.ok "package main"⟩, ⟨"vendor/lib.go", Except.ok "lib"⟩,
       ⟨"README.md", Except.ok "docs"⟩] [] [("main.go", "package main")] rfl).2⟩

/-- The concrete loop of src/main.go is the abstract loop instantiated
with the mode-dispatching emission `goEmit`. -/
theorem processFiles_eq_with (opts : Options) :
    ∀ (items : List (Except String Entry)) (st : OutState),
      processFiles opts items st = processFilesWith (goEmit opts) opts items st := by
  intro items
  induction items with
  | nil => intro st; rfl
  | cons it rest ih =>
    intro st
    cases it with
    | error e => rfl
    | ok f =>
      cases hex : shouldExclude f.name opts.excludeDirs opts.includeDir with
      | true => simp [processFiles, processFilesWith, hex, ih]
      | false =>
        cases hvx : hasValidExtension f.name opts.extensions with
        | false => simp [processFiles, processFilesWith, hex, hvx, ih]
        | true =>
          cases hc : f.contents with
          | error e => simp [processFiles, processFilesWith, hex, hvx, hc]
          | ok c =>
            cases hsf : opts.singleFile with
            | true => simp [processFiles, processFilesWith, goEmit, hex, hvx, hc, hsf, ih]
            | false => simp [processFiles, processFilesWith, goEmit, hex, hvx, hc, hsf, ih]

/-- The framed block the Concatenator appends for one file:
"--- <path> ---\n<content>\n\n" (the Fprintf format of src/main.go line
165). -/
def fileBlock (p : String × String) : String :=
  "--- " ++ p.1 ++ " ---\n" ++ p.2 ++ "\n\n"

/-- Concatenation of the framed blocks of a list of (path, content)
pairs, in order. -/
def concatBlocks : List (String × String) → String
  | [] => ""
  | p :: rest => fileBlock p ++ concatBlocks rest

/-- In single-file mode, emitting a list of pairs appends the
concatenation of their blocks to the stream and leaves the destination
directory untouched. -/
theorem emitAll_goEmit_single (opts : Options) (hmode : opts.singleFile = true) :
    ∀ (pairs : List (String × String)) (st : OutState),
      emitAll (goEmit opts) pairs st
        = Except.ok ⟨st.stream ++ concatBlocks pairs, st.files⟩ := by
  intro pairs
  induction pairs with
  | nil => intro st; simp [emitAll, concatBlocks, String.append_empty]
  | cons p rest ih =>
    intro st
    cases p with
    | mk n c =>
      simp [emitAll, goEmit, hmode, ih, concatBlocks, fileBlock, String.append_assoc]

/-- In multi-file mode, emitting a list of pairs appends one write per
pair — keyed by the basename of the path — to the write journal and
leaves the stream untouched. -/
theorem emitAll_goEmit_dir (opts : Options) (hmode : opts.singleFile = false) :
    ∀ (pairs : List (String × String)) (st : OutState),
      emitAll (goEmit opts) pairs st
        = Except.ok ⟨st.stream, st.files ++ pairs.map fun p => (basename p.1, p.2)⟩ := by
  intro pairs
  induction pairs with
  | nil => intro st; simp [emitAll]
  | cons p rest ih =>
    intro st
    cases p with
    | mk n c =>
      simp [emitAll, goEmit, hmode, ih]

/-- C7: in single-file mode, a successful run leaves the output artifact
equal to the prior stream contents followed by the concatenation, in
traversal order, of "--- <path> ---\n<content>\n\n" blocks for exactly
the selected files, and writes nothing into the destination directory. -/
theorem concatenator_output (opts : Options) (entries : List Entry) (s0 : String)
    (fs0 : List (String × String)) (stf : OutState)
    (hmode : opts.singleFile = true)
    (h : processFiles opts (entries.map Except.ok) ⟨s0, fs0⟩ = Except.ok stf) :
    stf = ⟨s0 ++ concatBlocks (selectedOutputs opts entries), fs0⟩ := by
  rw [processFiles_eq_with] at h
  have h2 := processFilesWith_ok (goEmit opts) opts entries ⟨s0, fs0⟩ stf h
  rw [emitAll_goEmit_single opts hmode] at h2
  exact (Except.ok.inj h2).symm

/-- Witness for C7: the two selected files a.go -> "X" and b.go -> "Y"
produce exactly "--- a.go ---\nX\n\n--- b.go ---\nY\n\n". -/
theorem concatenator_output_witness :
    (Options.mk [] "" [] true).singleFile = true
    ∧ processFiles ⟨[], "", [], true⟩
        ([⟨"a.go", Except.ok "X"⟩, ⟨"b.go", Except.ok "Y"⟩].map Except.ok) ⟨"", []⟩
      = Except.ok ⟨"--- a.go ---\nX\n\n--- b.go ---\nY\n\n", []⟩
    ∧ (OutState.mk "--- a.go ---\nX\n\n--- b.go ---\nY\n\n" [])
      = ⟨"" ++ concatBlocks (selectedOutputs ⟨[], "", [], true⟩
            [⟨"a.go", Except.ok "X"⟩, ⟨"b.go", Except.ok "Y"⟩]), []⟩ :=
  ⟨rfl, rfl,
   concatenator_output ⟨[], "", [], true⟩ [⟨"a.go", Except.ok "X"⟩, ⟨"b.go", Except.ok "Y"⟩]
     "" [] ⟨"--- a.go ---\nX\n\n--- b.go ---\nY\n\n", []⟩ rfl rfl⟩

/-- C9: in multi-file mode, a successful run writes each selected file
at the basename of its path, in traversal order, and for every basename
the destination ends up holding exactly the content of the last selected
file with that basename in traversal order (os.WriteFile truncates, so
the last write wins). -/
theorem dirWriter_lastWriteWins (opts : Options) (entries : List Entry) (s0 : String)
    (stf : OutState) (b : String)
    (hmode : opts.singleFile = false)
    (h : processFiles opts (entries.map Except.ok) ⟨s0, []⟩ = Except.ok stf) :
    stf.files = (selectedOutputs opts entries).map (fun p => (basename p.1, p.2))
    ∧ lastWrite stf.files b
        = (((selectedOutputs opts entries).filter fun p => basename p.1 == b).getLast?).map
            Prod.snd := by
  rw [processFiles_eq_with] at h
  have h2 := processFilesWith_ok (goEmit opts) opts entries ⟨s0, []⟩ stf h
  rw [emitAll_goEmit_dir opts hmode] at h2
  have hstf := Except.ok.inj h2
  have hfiles : stf.files = (selectedOutputs opts entries).map fun p => (basename p.1, p.2) := by
    rw [← hstf]; simp
  refine ⟨hfiles, ?_⟩
  rw [hfiles]
  unfold lastWrite
  rw [List.filter_map, List.getLast?_map, Option.map_map]
  rfl

/-- Witness for C9: the colliding selected paths a/x.txt -> "A" and
b/x.txt -> "B" leave exactly one flat file x.txt, holding "B". -/
theorem dirWriter_lastWriteWins_witness :
    (Options.mk [] "" [] false).singleFile = false
    ∧ processFiles ⟨[], "", [], false⟩
        ([⟨"a/x.txt", Except.ok "A"⟩, ⟨"b/x.txt", Except.ok "B"⟩].map Except.ok) ⟨"", []⟩
      = Except.ok ⟨"", [("x.txt", "A"), ("x.txt", "B")]⟩
    ∧ (OutState.mk "" [("x.txt", "A"), ("x.txt", "B")]).files
      = (selectedOutputs ⟨[], "", [], false⟩
          [⟨"a/x.txt", Except.ok "A"⟩, ⟨"b/x.txt", Except.ok "B"⟩]).map
            (fun p => (basename p.1, p.2))
    ∧ lastWrite (OutState.mk "" [("x.txt", "A"), ("x.txt", "B")]).files "x.txt"
      = (((selectedOutputs ⟨[], "", [], false⟩
            [⟨"a/x.txt", Except.ok "A"⟩, ⟨"b/x.txt", Except.ok "B"⟩]).filter
              fun p => basename p.1 == "x.txt").getLast?).map Prod.snd
    ∧ lastWrite [("x.txt", "A"), ("x.txt", "B")] "x.txt" = some "B" :=
  ⟨rfl, rfl,
   (dirWriter_lastWriteWins ⟨[], "", [], false⟩
      [⟨"a/x.txt", Except.ok "A"⟩, ⟨"b/x.txt", Except.ok "B"⟩] ""
      ⟨"", [("x.txt", "A"), ("x.txt", "B")]⟩ "x.txt" rfl rfl).1,
   (dirWriter_lastWriteWins ⟨[], "", [], false⟩
      [⟨"a/x.txt", Except.ok "A"⟩, ⟨"b/x.txt", Except.ok "B"⟩] ""
      ⟨"", [("x.txt", "A"), ("x.txt", "B")]⟩ "x.txt" rfl rfl).2,
   rfl⟩

/-- Processing a traversal that begins with a successfully processed
segment continues from the state that segment produced: the loop is a
left-to-right fold over the traversal. -/
theorem processFilesWith_append {σ : Type} (emit : σ → String → String → Except String σ)
    (opts : Options) (rest : List (Except String Entry)) :
    ∀ (pre : List (Except String Entry)) (s1 s2 : σ),
      processFilesWith emit opts pre s1 = Except.ok s2 →
      processFilesWith emit opts (pre ++ rest) s1 = processFilesWith emit opts rest s2 := by
  intro pre
  induction pre with
  | nil =>
    intro s1 s2 h
    simp only [processFilesWith] at h
    have hs := Except.ok.inj h
    subst hs
    rfl
  | cons it pre ih =>
    intro s1 s2 h
    cases it with
    | error e => simp [processFilesWith] at h
    | ok f =>
      simp only [processFilesWith] at h
      cases hex : shouldExclude f.name opts.excludeDirs opts.includeDir with
      | true =>
        rw [hex] at h
        simp only [if_true] at h
        simp only [List.cons_append, processFilesWith, hex, if_true]
        exact ih s1 s2 h
      | false =>
        rw [hex] at h
        simp only [Bool.false_eq_true, if_false] at h
        cases hvx : hasValidExtension f.name opts.extensions with
        | false =>
          rw [hvx] at h
          simp only [Bool.not_false, if_true] at h
          simp only [List.cons_append, processFilesWith, hex, hvx, Bool.false_eq_true,
            Bool.not_false, if_false, if_true]
          exact ih s1 s2 h
        | true =>
          rw [hvx] at h
          simp only [Bool.not_true, Bool.false_eq_true, if_false] at h
          cases hc : f.contents with
          | error e => rw [hc] at h; simp at h
          | ok c =>
            rw [hc] at h
            dsimp only at h
            cases hemit : emit s1 f.name c with
            | error e => rw [hemit] at h; simp at h
            | ok st' =>
              rw [hemit] at h
              simp only [List.cons_append, processFilesWith, hex, hvx, hc, hemit,
                Bool.false_eq_true, Bool.not_true, if_false]
              exact ih st' s2 h

/-- C8: the first error anywhere in the pipeline aborts the remaining
entries and is returned wrapped: an enumeration failure is propagated
as-is regardless of what would have followed; a selected entry whose
content read fails aborts with the wrapped read error; a selected entry
whose emission fails aborts with the wrapped write error; and a
traversal only reaches later entries through the successful processing
of everything before them. -/
theorem failFast_propagation {σ : Type} (emit : σ → String → String → Except String σ)
    (opts : Options) (st : σ) (f g : Entry) (c e ew : String)
    (rest : List (Except String Entry)) :
    processFilesWith emit opts (Except.error e :: rest) st = Except.error e
    ∧ (isSelected f.name opts.excludeDirs opts.includeDir opts.extensions = true →
        f.contents = Except.error e →
        processFilesWith emit opts (Except.ok f :: rest) st
          = Except.error ("error reading file contents: " ++ e))
    ∧ (isSelected g.name opts.excludeDirs opts.includeDir opts.extensions = true →
        g.contents = Except.ok c →
        emit st g.name c = Except.error ew →
        processFilesWith emit opts (Except.ok g :: rest) st
          = Except.error ("error writing file: " ++ ew))
    ∧ (∀ (pre : List (Except String Entry)) (s1 s2 : σ),
        processFilesWith emit opts pre s1 = Except.ok s2 →
        processFilesWith emit opts (pre ++ rest) s1 = processFilesWith emit opts rest s2) := by
  refine ⟨rfl, ?_, ?_, processFilesWith_append emit opts rest⟩
  · intro hsel hc
    rw [isSelected, Bool.and_eq_true, Bool.not_eq_true'] at hsel
    obtain ⟨hex, hvx⟩ := hsel
    simp [processFilesWith, hex, hvx, hc]
  · intro hsel hc hemit
    rw [isSelected, Bool.and_eq_true, Bool.not_eq_true'] at hsel
    obtain ⟨hex, hvx⟩ := hsel
    simp [processFilesWith, hex, hvx, hc, hemit]

/-- An output target that always fails (e.g. the disk is full). -/
def failEmit : List (String × String) → String → String → Except String (List (String × String)) :=
  fun _ _ _ => Except.error "disk full"

/-- Witness for C8: an enumeration failure, a selected entry with a
failing read, and a selected entry whose write fails each abort the run
with the wrapped cause, with a further entry still pending. -/
theorem failFast_propagation_witness :
    processFilesWith failEmit ⟨[], "", [".go"], true⟩
        (Except.error "corrupt tree" :: [Except.ok ⟨"later.go", Except.ok "Z"⟩]) []
      = Except.error "corrupt tree"
    ∧ isSelected "bad.go" [] "" [".go"] = true
    ∧ (⟨"bad.go", Except.error "corrupt tree"⟩ : Entry).contents = Except.error "corrupt tree"
    ∧ processFilesWith failEmit ⟨[], "", [".go"], true⟩
        (Except.ok ⟨"bad.go", Except.error "corrupt tree"⟩
          :: [Except.ok ⟨"later.go", Except.ok "Z"⟩]) []
      = Except.error ("error reading file contents: " ++ "corrupt tree")
    ∧ isSelected "ok.go" [] "" [".go"] = true
    ∧ failEmit [] "ok.go" "X" = Except.error "disk full"
    ∧ processFilesWith failEmit ⟨[], "", [".go"], true⟩
        (Except.ok ⟨"ok.go", Except.ok "X"⟩ :: [Except.ok ⟨"later.go", Except.ok "Z"⟩]) []
      = Except.error ("error writing file: " ++ "disk full")
    ∧ processFilesWith failEmit ⟨[], "", [".go"], true⟩
        ([] ++ [Except.ok ⟨"later.go", Except.ok "Z"⟩]) []
      = processFilesWith failEmit ⟨[], "", [".go"], true⟩
          [Except.ok ⟨"later.go", Except.ok "Z"⟩] [] :=
  ⟨(failFast_propagation failEmit ⟨[], "", [".go"], true⟩ []
      ⟨"bad.go", Except.error "corrupt tree"⟩ ⟨"ok.go", Except.ok "X"⟩
      "X" "corrupt tree" "disk full" [Except.ok ⟨"later.go", Except.ok "Z"⟩]).1,
   by decide, rfl,
   (failFast_propagation failEmit ⟨[], "", [".go"], true⟩ []
      ⟨"bad.go", Except.error "corrupt tree"⟩ ⟨"ok.go", Except.ok "X"⟩
      "X" "corrupt tree" "disk full" [Except.ok ⟨"later.go", Except.ok "Z"⟩]).2.1
     (by decide) rfl,
   by decide, rfl,
   (failFast_propagation failEmit ⟨[], "", [".go"], true⟩ []
      ⟨"bad.go", Except.error "corrupt tree"⟩ ⟨"ok.go", Except.ok "X"⟩
      "X" "corrupt tree" "disk full" [Except.ok ⟨"later.go", Except.ok "Z"⟩]).2.2.1
     (by decide) rfl rfl,
   (failFast_propagation failEmit ⟨[], "", [".go"], true⟩ []
      ⟨"bad.go", Except.error "corrupt tree"⟩ ⟨"ok.go", Except.ok "X"⟩
      "X" "corrupt tree" "disk full" [Except.ok ⟨"later.go", Except.ok "Z"⟩]).2.2.2
     [] [] [] rfl⟩
